import Mathlib

/-!
Verification of the Dempster-Shafer evidence-combination engine of this
repository (files `BeliefFunctions/RealWorldExample.py` and
`BeliefFunctions/BeliefFunctionModel.py`).

The subset-form engine (`DempsterShaferDiagnosis`) represents a mass
function as a dictionary from focal sets (frozensets of hypotheses) to
real weights.  We embed it as a total function `Finset α → ℚ`, a key
that is absent from the dictionary carrying mass `0`; exact rational
arithmetic plays the role of the floating-point arithmetic of the code.

The shorthand engine (`BeliefFunctionKB`) represents a single-variable
mass function as a dictionary with string keys `var=V`, `var=F`, `var=?`;
we embed those three key shapes as the enumeration `SKey`.
-/

namespace DS

variable {α : Type} [DecidableEq α] [Fintype α]

/-- A mass function in the subset form: the dictionary
`mf['masses']` of `RealWorldExample.py`, read as a total function that is
`0` on absent keys. -/
abbrev MassFun (α : Type) [DecidableEq α] [Fintype α] := Finset α → ℚ

/-- The conflict accumulator of `dempster_combination`
(`RealWorldExample.py` lines 62-98): the sum of `mass1 * mass2` over all
pairs of focal sets with empty intersection. -/
def conflictK (m1 m2 : MassFun α) : ℚ :=
  ∑ A, ∑ B, if A ∩ B = ∅ then m1 A * m2 B else 0

/-- The un-normalized combined accumulator `combined` of
`dempster_combination`: products `mass1 * mass2` are accumulated at the
key `A ∩ B` whenever the intersection is non-empty; the empty set never
becomes a key. -/
def combineRaw (m1 m2 : MassFun α) : MassFun α :=
  fun C => if C = ∅ then 0 else ∑ A, ∑ B, if A ∩ B = C then m1 A * m2 B else 0

/-- `DempsterShaferDiagnosis.dempster_combination`
(`RealWorldExample.py` lines 58-115): accumulate conflict and combined
masses over all pairs; if the conflict is `< 1` divide every combined
mass by `1 - conflict` and return it together with the conflict,
otherwise raise (`none`). -/
def dempster_combination (m1 m2 : MassFun α) : Option (MassFun α × ℚ) :=
  if conflictK m1 m2 < 1 then
    some (fun C => combineRaw m1 m2 C / (1 - conflictK m1 m2), conflictK m1 m2)
  else
    none

/-- `DempsterShaferDiagnosis.create_mass_function`
(`RealWorldExample.py` lines 48-56): reject (`none`) when the total mass
differs from `1` by more than `0.001`, otherwise return the mapping
unchanged.  No other condition is checked. -/
def create_mass_function (masses : MassFun α) : Option (MassFun α) :=
  if |(∑ A, masses A) - 1| > 1/1000 then none else some masses

/-- `DempsterShaferDiagnosis.calculate_belief`
(`RealWorldExample.py` lines 256-267): the sum of the masses of the
focal sets included in the hypothesis set. -/
def calculate_belief (m : MassFun α) (H : Finset α) : ℚ :=
  ∑ A, if A ⊆ H then m A else 0

/-- `DempsterShaferDiagnosis.calculate_plausibility`
(`RealWorldExample.py` lines 269-280): the sum of the masses of the
focal sets whose intersection with the hypothesis set is non-empty
(`len(focal_set & hyp_set) > 0`). -/
def calculate_plausibility (m : MassFun α) (H : Finset α) : ℚ :=
  ∑ A, if 0 < (A ∩ H).card then m A else 0

/-- A valid mass function over the frame `frame`, as the spec demands of
constructed mass functions: every focal set carrying mass is a non-empty
subset of the frame, no mass is negative, and the masses sum to `1`. -/
def validMass (frame : Finset α) (m : MassFun α) : Prop :=
  (∀ A, 0 ≤ m A) ∧ (∀ A, m A ≠ 0 → A ≠ ∅ ∧ A ⊆ frame) ∧ (∑ A, m A) = 1

instance (frame : Finset α) (m : MassFun α) : Decidable (validMass frame m) := by
  unfold validMass
  infer_instance

end DS

namespace DS

/-! ### The shorthand single-variable engine of `BeliefFunctionModel.py` -/

/-- The three shapes of string key the shorthand engine uses for one
boolean variable: `var=V`, `var=F` and `var=?`. -/
inductive SKey : Type
  | V : SKey
  | F : SKey
  | Q : SKey
deriving DecidableEq

instance : Fintype SKey :=
  ⟨⟨{SKey.V, SKey.F, SKey.Q}, by decide⟩, by intro x; cases x <;> decide⟩

/-- A shorthand mass function: the string-keyed dictionary of
`BeliefFunctionKB`, read as a total function on the three key shapes. -/
abbrev SMass := SKey → ℚ

/-- The key-intersection logic of `BeliefFunctionKB.dempster_combination`
(`BeliefFunctionModel.py` lines 128-141): equal keys intersect to
themselves, a `?` key intersects to the other key, and two distinct
non-`?` keys conflict (`none`). -/
def skey_inter (k1 k2 : SKey) : Option SKey :=
  if k1 = k2 then some k1
  else if k1 = SKey.Q then some k2
  else if k2 = SKey.Q then some k1
  else none

/-- The conflict accumulator of `BeliefFunctionKB.dempster_combination`. -/
def sconflict (m1 m2 : SMass) : ℚ :=
  ∑ k1, ∑ k2, if skey_inter k1 k2 = none then m1 k1 * m2 k2 else 0

/-- The un-normalized combined dictionary of
`BeliefFunctionKB.dempster_combination`. -/
def scombineRaw (m1 m2 : SMass) : SMass :=
  fun c => ∑ k1, ∑ k2, if skey_inter k1 k2 = some c then m1 k1 * m2 k2 else 0

/-- `BeliefFunctionKB.dempster_combination`
(`BeliefFunctionModel.py` lines 114-154): accumulate conflict and
combined masses; normalize by `1 - conflict` only when the conflict is
`< 1`; always return `(combined, conflict)` — there is no failure
branch. -/
def sdempster_combination (m1 m2 : SMass) : SMass × ℚ :=
  (if sconflict m1 m2 < 1 then
     fun c => scombineRaw m1 m2 c / (1 - sconflict m1 m2)
   else scombineRaw m1 m2,
   sconflict m1 m2)

/-- The lowering of a shorthand key to a subset of the two-point frame
`Fin 2` (`0` standing for `var = True`, `1` for `var = False`):
`var=V ↦ {True}`, `var=F ↦ {False}`, `var=? ↦ {True, False}`. -/
def lowerKey : SKey → Finset (Fin 2)
  | SKey.V => {0}
  | SKey.F => {1}
  | SKey.Q => Finset.univ

/-- The lowering of a shorthand mass function to a subset-form mass
function over the two-point frame. -/
def lowerMass (m : SMass) : MassFun (Fin 2) :=
  fun A => ∑ k, if lowerKey k = A then m k else 0

end DS

namespace DS

variable {α : Type} [DecidableEq α] [Fintype α]

/-! ### Basic lemmas about the subset-form engine -/

/-- For one pair of focal sets, summing its contribution over all
possible intersection keys recovers the single term, guarded by
emptiness of the intersection. -/
lemma sum_pair_contribution (A B : Finset α) (p : ℚ) :
    (∑ C, if C = ∅ then 0 else if A ∩ B = C then p else 0) =
      if A ∩ B = ∅ then 0 else p := by
  rw [Finset.sum_eq_single (A ∩ B)]
  · simp
  · intro C _ hC
    split_ifs with h1 h2
    · rfl
    · exact absurd h2.symm hC
    · rfl
  · intro h
    exact absurd (Finset.mem_univ _) h

/-- The conflict plus the total un-normalized combined mass is the
product of the two total input masses: every pairwise product lands
either in the conflict accumulator or in the combined map. -/
lemma conflict_add_sum_raw (m1 m2 : MassFun α) :
    conflictK m1 m2 + ∑ C, combineRaw m1 m2 C = (∑ A, m1 A) * (∑ B, m2 B) := by
  have hraw : ∑ C, combineRaw m1 m2 C
      = ∑ A, ∑ B, if A ∩ B = ∅ then 0 else m1 A * m2 B := by
    unfold combineRaw
    have step1 : ∑ C, (if C = ∅ then (0:ℚ) else ∑ A, ∑ B, if A ∩ B = C then m1 A * m2 B else 0)
        = ∑ C, ∑ A, ∑ B, if C = ∅ then 0 else if A ∩ B = C then m1 A * m2 B else 0 := by
      refine Finset.sum_congr rfl fun C _ => ?_
      split_ifs with hC
      · simp
      · rfl
    rw [step1, Finset.sum_comm]
    refine Finset.sum_congr rfl fun A _ => ?_
    rw [Finset.sum_comm]
    refine Finset.sum_congr rfl fun B _ => ?_
    exact sum_pair_contribution A B (m1 A * m2 B)
  rw [hraw, Finset.sum_mul_sum]
  unfold conflictK
  rw [← Finset.sum_add_distrib]
  refine Finset.sum_congr rfl fun A _ => ?_
  rw [← Finset.sum_add_distrib]
  refine Finset.sum_congr rfl fun B _ => ?_
  split_ifs <;> ring

/-- The conflict accumulator is symmetric in its two arguments. -/
lemma conflictK_comm (m1 m2 : MassFun α) : conflictK m1 m2 = conflictK m2 m1 := by
  unfold conflictK
  rw [Finset.sum_comm]
  refine Finset.sum_congr rfl fun B _ => Finset.sum_congr rfl fun A _ => ?_
  rw [Finset.inter_comm, mul_comm]

/-- The un-normalized combined map is symmetric in its two arguments. -/
lemma combineRaw_comm (m1 m2 : MassFun α) : combineRaw m1 m2 = combineRaw m2 m1 := by
  funext C
  unfold combineRaw
  split_ifs with hC
  · rfl
  · rw [Finset.sum_comm]
    refine Finset.sum_congr rfl fun B _ => Finset.sum_congr rfl fun A _ => ?_
    rw [Finset.inter_comm, mul_comm]

/-- For valid inputs, the conflict accumulator is non-negative. -/
lemma conflictK_nonneg {frame : Finset α} {m1 m2 : MassFun α}
    (h1 : validMass frame m1) (h2 : validMass frame m2) :
    0 ≤ conflictK m1 m2 := by
  refine Finset.sum_nonneg fun A _ => Finset.sum_nonneg fun B _ => ?_
  split_ifs
  · exact mul_nonneg (h1.1 A) (h2.1 B)
  · exact le_refl 0

/-- For valid inputs, every entry of the un-normalized combined map is
non-negative. -/
lemma combineRaw_nonneg {frame : Finset α} {m1 m2 : MassFun α}
    (h1 : validMass frame m1) (h2 : validMass frame m2) (C : Finset α) :
    0 ≤ combineRaw m1 m2 C := by
  unfold combineRaw
  split_ifs
  · exact le_refl 0
  · refine Finset.sum_nonneg fun A _ => Finset.sum_nonneg fun B _ => ?_
    split_ifs
    · exact mul_nonneg (h1.1 A) (h2.1 B)
    · exact le_refl 0

/-- For valid inputs, the conflict accumulator is at most `1`. -/
lemma conflictK_le_one {frame : Finset α} {m1 m2 : MassFun α}
    (h1 : validMass frame m1) (h2 : validMass frame m2) :
    conflictK m1 m2 ≤ 1 := by
  have htot := conflict_add_sum_raw m1 m2
  rw [h1.2.2, h2.2.2, one_mul] at htot
  have hsum : 0 ≤ ∑ C, combineRaw m1 m2 C :=
    Finset.sum_nonneg fun C _ => combineRaw_nonneg h1 h2 C
  linarith

/-! ### Concrete mass functions used by the spec's worked example

The spec's two-hypothesis frame is `{d, ¬d}`; we write it `Fin 2`, with
`0` standing for `d`, so the focal set `{d}` is `{0}` and the ignorance
set `Ω` is `Finset.univ`. -/

/-- The spec's first example source: `m1 = {d: 0.14, Ω: 0.86}`. -/
def exM1 : MassFun (Fin 2) :=
  fun A => if A = {0} then 14/100 else if A = Finset.univ then 86/100 else 0

/-- The spec's second example source: `m2 = {d: 0.60, Ω: 0.40}`. -/
def exM2 : MassFun (Fin 2) :=
  fun A => if A = {0} then 60/100 else if A = Finset.univ then 40/100 else 0

end DS

namespace DS

/-! ### Sum-exchange helpers -/

/-- Pull the two inner summation indices of a quadruple sum to the
outside. -/
lemma sum_swap4 {β γ : Type} [Fintype β] [Fintype γ] (t : β → β → γ → γ → ℚ) :
    (∑ A : β, ∑ B : β, ∑ k1 : γ, ∑ k2 : γ, t A B k1 k2)
      = ∑ k1 : γ, ∑ k2 : γ, ∑ A : β, ∑ B : β, t A B k1 k2 :=
  calc (∑ A : β, ∑ B : β, ∑ k1 : γ, ∑ k2 : γ, t A B k1 k2)
      = ∑ A : β, ∑ k1 : γ, ∑ B : β, ∑ k2 : γ, t A B k1 k2 :=
        Finset.sum_congr rfl fun A _ => Finset.sum_comm
    _ = ∑ k1 : γ, ∑ A : β, ∑ B : β, ∑ k2 : γ, t A B k1 k2 := Finset.sum_comm
    _ = ∑ k1 : γ, ∑ A : β, ∑ k2 : γ, ∑ B : β, t A B k1 k2 :=
        Finset.sum_congr rfl fun k1 _ => Finset.sum_congr rfl fun A _ =>
          Finset.sum_comm
    _ = ∑ k1 : γ, ∑ k2 : γ, ∑ A : β, ∑ B : β, t A B k1 k2 :=
        Finset.sum_congr rfl fun k1 _ => Finset.sum_comm

/-- A double sum of a doubly-guarded constant collapses to the guard at
the two distinguished indices. -/
lemma sum_ite_and_collapse2 {β : Type} [Fintype β] [DecidableEq β]
    (a b : β) (P : β → β → Prop) [∀ x y, Decidable (P x y)] (c : ℚ) :
    (∑ A : β, ∑ B : β, if A = a ∧ B = b ∧ P A B then c else 0)
      = if P a b then c else 0 := by
  rw [Finset.sum_eq_single a]
  · rw [Finset.sum_eq_single b]
    · by_cases hP : P a b
      · rw [if_pos ⟨rfl, rfl, hP⟩, if_pos hP]
      · rw [if_neg fun h => hP h.2.2, if_neg hP]
    · intro B _ hB
      rw [if_neg fun h => hB h.2.1]
    · intro h
      exact absurd (Finset.mem_univ b) h
  · intro A _ hA
    refine Finset.sum_eq_zero fun B _ => ?_
    rw [if_neg fun h => hA h.1]
  · intro h
    exact absurd (Finset.mem_univ a) h

/-! ### Associativity infrastructure for the combination engine -/

/-- A sum of a singly-guarded constant collapses to the guard at the
distinguished index. -/
lemma sum_ite_eq_and {β : Type} [Fintype β] [DecidableEq β]
    (a : β) (Q : β → Prop) [DecidablePred Q] (c : ℚ) :
    (∑ X : β, if X = a ∧ Q X then c else 0) = if Q a then c else 0 := by
  rw [Finset.sum_eq_single a]
  · by_cases hQ : Q a
    · rw [if_pos ⟨rfl, hQ⟩, if_pos hQ]
    · rw [if_neg fun h => hQ h.2, if_neg hQ]
  · intro X _ hX
    rw [if_neg fun h => hX h.1]
  · intro h
    exact absurd (Finset.mem_univ a) h

/-- Rotate the outer summation index of a triple sum to the inside. -/
lemma sum_rot3 {β : Type} [Fintype β] (t : β → β → β → ℚ) :
    (∑ X : β, ∑ B : β, ∑ E : β, t X B E)
      = ∑ B : β, ∑ E : β, ∑ X : β, t X B E :=
  calc (∑ X : β, ∑ B : β, ∑ E : β, t X B E)
      = ∑ B : β, ∑ X : β, ∑ E : β, t X B E := Finset.sum_comm
    _ = ∑ B : β, ∑ E : β, ∑ X : β, t X B E :=
        Finset.sum_congr rfl fun B _ => Finset.sum_comm

section Assoc

variable {α : Type} [DecidableEq α] [Fintype α]

/-- The three-source un-normalized joint mass: the sum of triple
products over triples of focal sets with the given intersection. -/
def raw3 (m1 m2 m3 : MassFun α) (C : Finset α) : ℚ :=
  ∑ A, ∑ B, ∑ E, if A ∩ B ∩ E = C then m1 A * m2 B * m3 E else 0

/-- The un-normalized combined map is `0` at the empty set. -/
lemma combineRaw_empty (f g : MassFun α) : combineRaw f g ∅ = 0 := by
  unfold combineRaw
  rw [if_pos rfl]

/-- The un-normalized combined map at a non-empty set is the guarded
double sum. -/
lemma combineRaw_ne_empty (f g : MassFun α) {C : Finset α} (hC : C ≠ ∅) :
    combineRaw f g C = ∑ A, ∑ B, if A ∩ B = C then f A * g B else 0 := by
  unfold combineRaw
  rw [if_neg hC]

/-- Dividing the first operand pointwise divides the conflict. -/
lemma conflictK_div_left (f g : MassFun α) (d : ℚ) :
    conflictK (fun X => f X / d) g = conflictK f g / d := by
  unfold conflictK
  rw [Finset.sum_div]
  refine Finset.sum_congr rfl fun A _ => ?_
  rw [Finset.sum_div]
  refine Finset.sum_congr rfl fun B _ => ?_
  split_ifs
  · exact div_mul_eq_mul_div (f A) d (g B)
  · exact (zero_div d).symm

/-- Dividing the second operand pointwise divides the conflict. -/
lemma conflictK_div_right (f g : MassFun α) (d : ℚ) :
    conflictK f (fun X => g X / d) = conflictK f g / d := by
  unfold conflictK
  rw [Finset.sum_div]
  refine Finset.sum_congr rfl fun A _ => ?_
  rw [Finset.sum_div]
  refine Finset.sum_congr rfl fun B _ => ?_
  split_ifs
  · exact (mul_div_assoc (f A) (g B) d).symm
  · exact (zero_div d).symm

/-- Dividing the first operand pointwise divides the un-normalized
combined map. -/
lemma combineRaw_div_left (f g : MassFun α) (d : ℚ) (C : Finset α) :
    combineRaw (fun X => f X / d) g C = combineRaw f g C / d := by
  unfold combineRaw
  split_ifs with hC
  · exact (zero_div d).symm
  · rw [Finset.sum_div]
    refine Finset.sum_congr rfl fun A _ => ?_
    rw [Finset.sum_div]
    refine Finset.sum_congr rfl fun B _ => ?_
    split_ifs
    · exact div_mul_eq_mul_div (f A) d (g B)
    · exact (zero_div d).symm

/-- Dividing the second operand pointwise divides the un-normalized
combined map. -/
lemma combineRaw_div_right (f g : MassFun α) (d : ℚ) (C : Finset α) :
    combineRaw f (fun X => g X / d) C = combineRaw f g C / d := by
  unfold combineRaw
  split_ifs with hC
  · exact (zero_div d).symm
  · rw [Finset.sum_div]
    refine Finset.sum_congr rfl fun A _ => ?_
    rw [Finset.sum_div]
    refine Finset.sum_congr rfl fun B _ => ?_
    split_ifs
    · exact (mul_div_assoc (f A) (g B) d).symm
    · exact (zero_div d).symm

/-- Normalizing twice composes into a single division:
`(x/d) / (1 - y/d) = x / (d - y)` for `d ≠ 0`. -/
lemma div_one_sub_div (x y d : ℚ) (hd : d ≠ 0) :
    (x / d) / (1 - y / d) = x / (d - y) := by
  rw [show (1 : ℚ) - y / d = (d - y) / d from by rw [sub_div, div_self hd]]
  rw [div_div_eq_mul_div, div_mul_cancel₀ x hd]

/-- Grouping the first two sources: the un-normalized combination of
`combineRaw m1 m2` with `m3` at a non-empty set is the three-source
joint mass. -/
lemma combineRaw_left_assoc (m1 m2 m3 : MassFun α) (C : Finset α) (hC : C ≠ ∅) :
    combineRaw (combineRaw m1 m2) m3 C = raw3 m1 m2 m3 C := by
  have step1 : ∀ X E : Finset α,
      (if X ∩ E = C then combineRaw m1 m2 X * m3 E else 0)
        = ∑ A, ∑ B, if X = A ∩ B ∧ (X ∩ E = C ∧ X ≠ ∅) then
            m1 A * m2 B * m3 E else 0 := by
    intro X E
    by_cases hX : X = ∅
    · subst hX
      rw [combineRaw_empty, zero_mul, ite_self]
      symm
      refine Finset.sum_eq_zero fun A _ => Finset.sum_eq_zero fun B _ => ?_
      exact if_neg fun h => h.2.2 rfl
    · rw [combineRaw_ne_empty m1 m2 hX]
      by_cases hXE : X ∩ E = C
      · rw [if_pos hXE, Finset.sum_mul]
        refine Finset.sum_congr rfl fun A _ => ?_
        rw [Finset.sum_mul]
        refine Finset.sum_congr rfl fun B _ => ?_
        by_cases hAB : A ∩ B = X
        · rw [if_pos hAB, if_pos ⟨hAB.symm, hXE, hX⟩]
        · rw [if_neg hAB, zero_mul, if_neg fun h => hAB h.1.symm]
      · rw [if_neg hXE]
        symm
        refine Finset.sum_eq_zero fun A _ => Finset.sum_eq_zero fun B _ => ?_
        exact if_neg fun h => hXE h.2.1
  calc combineRaw (combineRaw m1 m2) m3 C
      = ∑ X, ∑ E, if X ∩ E = C then combineRaw m1 m2 X * m3 E else 0 :=
        combineRaw_ne_empty _ _ hC
    _ = ∑ X, ∑ E, ∑ A, ∑ B, if X = A ∩ B ∧ (X ∩ E = C ∧ X ≠ ∅) then
          m1 A * m2 B * m3 E else 0 :=
        Finset.sum_congr rfl fun X _ => Finset.sum_congr rfl fun E _ => step1 X E
    _ = ∑ A, ∑ B, ∑ X, ∑ E, (if X = A ∩ B ∧ (X ∩ E = C ∧ X ≠ ∅) then
          m1 A * m2 B * m3 E else 0) := sum_swap4 _
    _ = ∑ A, ∑ B, ∑ E, ∑ X, (if X = A ∩ B ∧ (X ∩ E = C ∧ X ≠ ∅) then
          m1 A * m2 B * m3 E else 0) :=
        Finset.sum_congr rfl fun A _ => Finset.sum_congr rfl fun B _ =>
          Finset.sum_comm
    _ = ∑ A, ∑ B, ∑ E, if A ∩ B ∩ E = C ∧ A ∩ B ≠ ∅ then
          m1 A * m2 B * m3 E else 0 :=
        Finset.sum_congr rfl fun A _ => Finset.sum_congr rfl fun B _ =>
          Finset.sum_congr rfl fun E _ =>
            sum_ite_eq_and (A ∩ B) (fun X => X ∩ E = C ∧ X ≠ ∅)
              (m1 A * m2 B * m3 E)
    _ = raw3 m1 m2 m3 C := by
        unfold raw3
        refine Finset.sum_congr rfl fun A _ => Finset.sum_congr rfl fun B _ =>
          Finset.sum_congr rfl fun E _ => ?_
        refine if_congr ⟨fun h => h.1, fun h => ⟨h, fun hAB => hC ?_⟩⟩ rfl rfl
        rw [← h, hAB, Finset.empty_inter]

/-- Grouping the last two sources: the un-normalized combination of
`m1` with `combineRaw m2 m3` at a non-empty set is the three-source
joint mass. -/
lemma combineRaw_right_assoc (m1 m2 m3 : MassFun α) (C : Finset α) (hC : C ≠ ∅) :
    combineRaw m1 (combineRaw m2 m3) C = raw3 m1 m2 m3 C := by
  have step1 : ∀ A X : Finset α,
      (if A ∩ X = C then m1 A * combineRaw m2 m3 X else 0)
        = ∑ B, ∑ E, if X = B ∩ E ∧ (A ∩ X = C ∧ X ≠ ∅) then
            m1 A * m2 B * m3 E else 0 := by
    intro A X
    by_cases hX : X = ∅
    · subst hX
      rw [combineRaw_empty, mul_zero, ite_self]
      symm
      refine Finset.sum_eq_zero fun B _ => Finset.sum_eq_zero fun E _ => ?_
      exact if_neg fun h => h.2.2 rfl
    · rw [combineRaw_ne_empty m2 m3 hX]
      by_cases hAX : A ∩ X = C
      · rw [if_pos hAX, Finset.mul_sum]
        refine Finset.sum_congr rfl fun B _ => ?_
        rw [Finset.mul_sum]
        refine Finset.sum_congr rfl fun E _ => ?_
        by_cases hBE : B ∩ E = X
        · rw [if_pos hBE, if_pos ⟨hBE.symm, hAX, hX⟩, ← mul_assoc]
        · rw [if_neg hBE, mul_zero, if_neg fun h => hBE h.1.symm]
      · rw [if_neg hAX]
        symm
        refine Finset.sum_eq_zero fun B _ => Finset.sum_eq_zero fun E _ => ?_
        exact if_neg fun h => hAX h.2.1
  calc combineRaw m1 (combineRaw m2 m3) C
      = ∑ A, ∑ X, if A ∩ X = C then m1 A * combineRaw m2 m3 X else 0 :=
        combineRaw_ne_empty _ _ hC
    _ = ∑ A, ∑ X, ∑ B, ∑ E, if X = B ∩ E ∧ (A ∩ X = C ∧ X ≠ ∅) then
          m1 A * m2 B * m3 E else 0 :=
        Finset.sum_congr rfl fun A _ => Finset.sum_congr rfl fun X _ => step1 A X
    _ = ∑ A, ∑ B, ∑ E, ∑ X, (if X = B ∩ E ∧ (A ∩ X = C ∧ X ≠ ∅) then
          m1 A * m2 B * m3 E else 0) :=
        Finset.sum_congr rfl fun A _ => sum_rot3 _
    _ = ∑ A, ∑ B, ∑ E, if A ∩ (B ∩ E) = C ∧ B ∩ E ≠ ∅ then
          m1 A * m2 B * m3 E else 0 :=
        Finset.sum_congr rfl fun A _ => Finset.sum_congr rfl fun B _ =>
          Finset.sum_congr rfl fun E _ =>
            sum_ite_eq_and (B ∩ E) (fun X => A ∩ X = C ∧ X ≠ ∅)
              (m1 A * m2 B * m3 E)
    _ = raw3 m1 m2 m3 C := by
        unfold raw3
        refine Finset.sum_congr rfl fun A _ => Finset.sum_congr rfl fun B _ =>
          Finset.sum_congr rfl fun E _ => ?_
        refine if_congr ⟨fun h => ?_, fun h => ⟨?_, fun hBE => hC ?_⟩⟩ rfl rfl
        · rw [Finset.inter_assoc]
          exact h.1
        · rw [← Finset.inter_assoc]
          exact h
        · rw [← h, Finset.inter_assoc, hBE, Finset.inter_empty]

/-- The un-normalized combination is associative on the nose. -/
lemma combineRaw_assoc (m1 m2 m3 : MassFun α) :
    combineRaw (combineRaw m1 m2) m3 = combineRaw m1 (combineRaw m2 m3) := by
  funext C
  by_cases hC : C = ∅
  · rw [hC, combineRaw_empty, combineRaw_empty]
  · rw [combineRaw_left_assoc m1 m2 m3 C hC, combineRaw_right_assoc m1 m2 m3 C hC]

/-- Inversion of a successful combination: the conflict was below `1`,
the returned conflict is the accumulator, and the returned map is the
normalized un-normalized map. -/
lemma dempster_some_inv {a b r : MassFun α} {K : ℚ}
    (h : dempster_combination a b = some (r, K)) :
    conflictK a b < 1 ∧ K = conflictK a b ∧
      r = fun C => combineRaw a b C / (1 - conflictK a b) := by
  unfold dempster_combination at h
  split_ifs at h with hc
  · rw [Option.some_inj, Prod.mk.injEq] at h
    exact ⟨hc, h.2.symm, h.1.symm⟩

end Assoc

/-! ### The lowering bridge between the two engines -/

/-- No shorthand key lowers to the empty focal set. -/
lemma lowerKey_ne_empty (k : SKey) : lowerKey k ≠ ∅ := by
  cases k <;> decide

/-- Two lowered keys have empty intersection exactly when the shorthand
key-intersection logic reports a conflict. -/
lemma lower_inter_empty (k1 k2 : SKey) :
    lowerKey k1 ∩ lowerKey k2 = ∅ ↔ skey_inter k1 k2 = none := by
  cases k1 <;> cases k2 <;> decide

/-- Two lowered keys intersect in the lowering of `c` exactly when the
shorthand key-intersection logic returns `c`. -/
lemma lower_inter_some (k1 k2 c : SKey) :
    lowerKey k1 ∩ lowerKey k2 = lowerKey c ↔ skey_inter k1 k2 = some c := by
  cases k1 <;> cases k2 <;> cases c <;> decide

/-- A guarded double sum over subset pairs of products of lowered
masses is the corresponding guarded double sum over shorthand keys. -/
lemma lower_double_sum (m1 m2 : SMass)
    (P : Finset (Fin 2) → Finset (Fin 2) → Prop) [∀ A B, Decidable (P A B)] :
    (∑ A, ∑ B, if P A B then lowerMass m1 A * lowerMass m2 B else 0)
      = ∑ k1, ∑ k2,
          if P (lowerKey k1) (lowerKey k2) then m1 k1 * m2 k2 else 0 := by
  have step1 : ∀ A B, (if P A B then lowerMass m1 A * lowerMass m2 B else 0)
      = ∑ k1, ∑ k2, if A = lowerKey k1 ∧ B = lowerKey k2 ∧ P A B then
          m1 k1 * m2 k2 else 0 := by
    intro A B
    by_cases hP : P A B
    · rw [if_pos hP]
      unfold lowerMass
      rw [Finset.sum_mul_sum]
      refine Finset.sum_congr rfl fun k1 _ => Finset.sum_congr rfl fun k2 _ => ?_
      by_cases h1 : lowerKey k1 = A
      · by_cases h2 : lowerKey k2 = B
        · rw [if_pos h1, if_pos h2, if_pos ⟨h1.symm, h2.symm, hP⟩]
        · rw [if_pos h1, if_neg h2, mul_zero,
            if_neg fun h => h2 h.2.1.symm]
      · rw [if_neg h1, zero_mul, if_neg fun h => h1 h.1.symm]
    · rw [if_neg hP]
      symm
      refine Finset.sum_eq_zero fun k1 _ => Finset.sum_eq_zero fun k2 _ => ?_
      exact if_neg fun h => hP h.2.2
  calc (∑ A, ∑ B, if P A B then lowerMass m1 A * lowerMass m2 B else 0)
      = ∑ A, ∑ B, ∑ k1, ∑ k2,
          if A = lowerKey k1 ∧ B = lowerKey k2 ∧ P A B then
            m1 k1 * m2 k2 else 0 :=
        Finset.sum_congr rfl fun A _ => Finset.sum_congr rfl fun B _ => step1 A B
    _ = ∑ k1, ∑ k2, ∑ A, ∑ B,
          if A = lowerKey k1 ∧ B = lowerKey k2 ∧ P A B then
            m1 k1 * m2 k2 else 0 := sum_swap4 _
    _ = ∑ k1, ∑ k2,
          if P (lowerKey k1) (lowerKey k2) then m1 k1 * m2 k2 else 0 :=
        Finset.sum_congr rfl fun k1 _ => Finset.sum_congr rfl fun k2 _ =>
          sum_ite_and_collapse2 (lowerKey k1) (lowerKey k2) P (m1 k1 * m2 k2)

/-- The subset-form conflict of the lowered mass functions is the
shorthand conflict. -/
lemma conflictK_lower (m1 m2 : SMass) :
    conflictK (lowerMass m1) (lowerMass m2) = sconflict m1 m2 := by
  unfold conflictK sconflict
  rw [lower_double_sum m1 m2 (fun A B => A ∩ B = ∅)]
  refine Finset.sum_congr rfl fun k1 _ => Finset.sum_congr rfl fun k2 _ => ?_
  exact if_congr (lower_inter_empty k1 k2) rfl rfl

/-- The subset-form un-normalized combined mass of the lowered mass
functions, at a lowered key, is the shorthand un-normalized combined
mass at that key. -/
lemma combineRaw_lower (m1 m2 : SMass) (c : SKey) :
    combineRaw (lowerMass m1) (lowerMass m2) (lowerKey c) = scombineRaw m1 m2 c := by
  unfold combineRaw scombineRaw
  rw [if_neg (lowerKey_ne_empty c)]
  rw [lower_double_sum m1 m2 (fun A B => A ∩ B = lowerKey c)]
  refine Finset.sum_congr rfl fun k1 _ => Finset.sum_congr rfl fun k2 _ => ?_
  exact if_congr (lower_inter_some k1 k2 c) rfl rfl

end DS

namespace DS

variable {α : Type} [DecidableEq α] [Fintype α]

/-! ### Claims about the subset-form engine -/

/-- C2: for every two valid mass functions `m1` and `m2` over the same
frame, the conflict accumulator `K` produced by the combination plus the
sum of all pre-normalization combined masses equals exactly `1`. -/
theorem claim_C2_prenormalization_total (frame : Finset α) (m1 m2 : MassFun α)
    (h1 : validMass frame m1) (h2 : validMass frame m2) :
    conflictK m1 m2 + ∑ C, combineRaw m1 m2 C = 1 := by
  rw [conflict_add_sum_raw, h1.2.2, h2.2.2, one_mul]

/-- C5: the combination is commutative — swapping the two input mass
functions yields the same combined masses and the same conflict. -/
theorem claim_C5_commutative (frame : Finset α) (m1 m2 : MassFun α)
    (h1 : validMass frame m1) (h2 : validMass frame m2) :
    dempster_combination m1 m2 = dempster_combination m2 m1 := by
  unfold dempster_combination
  rw [conflictK_comm m1 m2, combineRaw_comm m1 m2]

/-- C7: for every valid mass function and every hypothesis set over the
same frame, belief is at most plausibility; equivalently the uncertainty
`plausibility - belief` is non-negative. -/
theorem claim_C7_belief_le_plausibility (frame : Finset α) (m : MassFun α)
    (h : validMass frame m) (H : Finset α) (hH : H ⊆ frame) :
    calculate_belief m H ≤ calculate_plausibility m H ∧
      0 ≤ calculate_plausibility m H - calculate_belief m H := by
  have key : calculate_belief m H ≤ calculate_plausibility m H := by
    unfold calculate_belief calculate_plausibility
    refine Finset.sum_le_sum fun A _ => ?_
    by_cases hm : m A = 0
    · simp [hm]
    · have hA := h.2.1 A hm
      by_cases hsub : A ⊆ H
      · have hcard : 0 < (A ∩ H).card := by
          rw [Finset.inter_eq_left.mpr hsub]
          exact Finset.card_pos.mpr (Finset.nonempty_iff_ne_empty.mpr hA.1)
        rw [if_pos hsub, if_pos hcard]
      · rw [if_neg hsub]
        split_ifs
        · exact h.1 A
        · exact le_refl 0
  exact ⟨key, by linarith⟩

/-- C8: for every valid mass function, the belief and plausibility of
the full frame are `1` and those of the empty hypothesis are `0`. -/
theorem claim_C8_frame_and_empty (frame : Finset α) (m : MassFun α)
    (h : validMass frame m) :
    calculate_belief m frame = 1 ∧ calculate_plausibility m frame = 1 ∧
      calculate_belief m ∅ = 0 ∧ calculate_plausibility m ∅ = 0 := by
  refine ⟨?_, ?_, ?_, ?_⟩
  · unfold calculate_belief
    rw [← h.2.2]
    refine Finset.sum_congr rfl fun A _ => ?_
    by_cases hm : m A = 0
    · simp [hm]
    · rw [if_pos (h.2.1 A hm).2]
  · unfold calculate_plausibility
    rw [← h.2.2]
    refine Finset.sum_congr rfl fun A _ => ?_
    by_cases hm : m A = 0
    · simp [hm]
    · have hA := h.2.1 A hm
      have hcard : 0 < (A ∩ frame).card := by
        rw [Finset.inter_eq_left.mpr hA.2]
        exact Finset.card_pos.mpr (Finset.nonempty_iff_ne_empty.mpr hA.1)
      rw [if_pos hcard]
  · unfold calculate_belief
    refine Finset.sum_eq_zero fun A _ => ?_
    by_cases hm : m A = 0
    · simp [hm]
    · rw [if_neg]
      intro hsub
      exact (h.2.1 A hm).1 (Finset.subset_empty.mp hsub)
  · unfold calculate_plausibility
    refine Finset.sum_eq_zero fun A _ => ?_
    rw [if_neg]
    simp

end DS

namespace DS

/-- A third example source on the two-point frame, used to exercise
associativity with genuine conflict:
`{d: 0.5, ¬d: 0.3, Ω: 0.2}`. -/
def exM3 : MassFun (Fin 2) :=
  fun A => if A = {0} then 5/10 else if A = {1} then 3/10
    else if A = Finset.univ then 2/10 else 0

/-- The normalized combination of the first two example sources. -/
def exM12 : MassFun (Fin 2) :=
  fun C => combineRaw exM1 exM2 C / (1 - conflictK exM1 exM2)

/-- The normalized combination of the last two example sources. -/
def exM23 : MassFun (Fin 2) :=
  fun C => combineRaw exM2 exM3 C / (1 - conflictK exM2 exM3)

/-- The left-grouped combination of the three example sources. -/
def exML : MassFun (Fin 2) :=
  fun C => combineRaw exM12 exM3 C / (1 - conflictK exM12 exM3)

/-- The right-grouped combination of the three example sources. -/
def exMR : MassFun (Fin 2) :=
  fun C => combineRaw exM1 exM23 C / (1 - conflictK exM1 exM23)

/-- The spec's malformed example `{A: 0.5, B: 0.6}` over a two-atom
frame: the masses sum to `1.1`. -/
def exBadSum : MassFun (Fin 2) :=
  fun A => if A = {0} then 5/10 else if A = {1} then 6/10 else 0

/-- A mapping that assigns mass `1/2` to the empty set and `1/2` to the
singleton of a one-atom frame: its masses sum to `1`, but its first key
is not a non-empty subset of the frame. -/
def exBadEmptyKey : MassFun (Fin 1) := fun _ => 1/2

/-- The shorthand form of the spec's first example source:
`{d=V: 0.14, d=?: 0.86}`. -/
def sEx1 : SMass :=
  fun k => if k = SKey.V then 14/100 else if k = SKey.Q then 86/100 else 0

/-- The shorthand form of the spec's second example source:
`{d=V: 0.60, d=?: 0.40}`. -/
def sEx2 : SMass :=
  fun k => if k = SKey.V then 60/100 else if k = SKey.Q then 40/100 else 0

/-- A shorthand point mass on `var=V`. -/
def sPointV : SMass := fun k => if k = SKey.V then 1 else 0

/-- A shorthand point mass on `var=F`. -/
def sPointF : SMass := fun k => if k = SKey.F then 1 else 0

/-- A one-atom frame `{0}` inside the two-point hypothesis space
`Fin 2`, used to query a hypothesis outside the frame. -/
def exFrame1 : Finset (Fin 2) := {0}

/-- The mass function putting all mass on `{0}`, valid over `exFrame1`. -/
def exMFrame1 : MassFun (Fin 2) := fun A => if A = {0} then 1 else 0

end DS

namespace DS

variable {α : Type} [DecidableEq α] [Fintype α]

/-- C3 (amended): the subset-form combination fails if and only if the
conflict accumulator equals `1`, and every successfully returned result
carries a conflict in `[0, 1)`; the shorthand engine, by contrast, has
no failure branch (see the counterexample). -/
theorem claim_C3_total_conflict (frame : Finset α) (m1 m2 : MassFun α)
    (h1 : validMass frame m1) (h2 : validMass frame m2) :
    (dempster_combination m1 m2 = none ↔ conflictK m1 m2 = 1) ∧
      ∀ r K, dempster_combination m1 m2 = some (r, K) → 0 ≤ K ∧ K < 1 := by
  have hle := conflictK_le_one h1 h2
  have hge := conflictK_nonneg h1 h2
  constructor
  · unfold dempster_combination
    split_ifs with hc
    · refine iff_of_false (fun habs => ?_) fun h => ?_
      · exact habs
      · rw [h] at hc
        exact absurd hc (lt_irrefl 1)
    · exact iff_of_true rfl (le_antisymm hle (not_lt.mp hc))
  · intro r K hsome
    unfold dempster_combination at hsome
    split_ifs at hsome with hc
    · rw [Option.some_inj, Prod.mk.injEq] at hsome
      rw [← hsome.2]
      exact ⟨hge, hc⟩

/-- C10: for every pair of shorthand mass functions over a single
boolean variable whose conflict is below `1`, the shorthand combination
computes the same conflict as the subset-form combination of the
lowered mass functions (`var=V ↦ {True}`, `var=F ↦ {False}`,
`var=? ↦ {True, False}`), and the same combined mass on every focal
set. -/
theorem claim_C10_shorthand_refines_subset (m1 m2 : SMass)
    (hK : sconflict m1 m2 < 1) :
    conflictK (lowerMass m1) (lowerMass m2) = sconflict m1 m2 ∧
      (sdempster_combination m1 m2).2 = sconflict m1 m2 ∧
      ∃ r, dempster_combination (lowerMass m1) (lowerMass m2) =
          some (r, sconflict m1 m2) ∧
        ∀ k, r (lowerKey k) = (sdempster_combination m1 m2).1 k := by
  have hB1 := conflictK_lower m1 m2
  refine ⟨hB1, rfl, ?_⟩
  have hKlow : conflictK (lowerMass m1) (lowerMass m2) < 1 := by
    rw [hB1]
    exact hK
  have hsome : dempster_combination (lowerMass m1) (lowerMass m2) =
      some (fun C => combineRaw (lowerMass m1) (lowerMass m2) C /
          (1 - conflictK (lowerMass m1) (lowerMass m2)),
        conflictK (lowerMass m1) (lowerMass m2)) := by
    unfold dempster_combination
    rw [if_pos hKlow]
  rw [hB1] at hsome
  refine ⟨_, hsome, fun k => ?_⟩
  show combineRaw (lowerMass m1) (lowerMass m2) (lowerKey k) /
      (1 - sconflict m1 m2) = _
  rw [combineRaw_lower]
  unfold sdempster_combination
  rw [if_pos hK]

/-- C6: the combination is associative — for three valid sources with
no intermediate total conflict, combining the first two and then the
third assigns the same mass to every focal set as combining the first
with the combination of the last two. -/
theorem claim_C6_associative (frame : Finset α) (m1 m2 m3 : MassFun α)
    (h1 : validMass frame m1) (h2 : validMass frame m2) (h3 : validMass frame m3)
    (m12 m23 mL mR : MassFun α) (K12 K23 KL KR : ℚ)
    (h12 : dempster_combination m1 m2 = some (m12, K12))
    (h23 : dempster_combination m2 m3 = some (m23, K23))
    (hL : dempster_combination m12 m3 = some (mL, KL))
    (hR : dempster_combination m1 m23 = some (mR, KR))
    (C : Finset α) :
    mL C = mR C := by
  obtain ⟨hK12, -, hm12⟩ := dempster_some_inv h12
  obtain ⟨hK23, -, hm23⟩ := dempster_some_inv h23
  obtain ⟨-, -, hmL⟩ := dempster_some_inv hL
  obtain ⟨-, -, hmR⟩ := dempster_some_inv hR
  have hd1 : (1 : ℚ) - conflictK m1 m2 ≠ 0 := by
    have hpos : (0:ℚ) < 1 - conflictK m1 m2 := by linarith
    exact ne_of_gt hpos
  have hd2 : (1 : ℚ) - conflictK m2 m3 ≠ 0 := by
    have hpos : (0:ℚ) < 1 - conflictK m2 m3 := by linarith
    exact ne_of_gt hpos
  have hsum12 : (∑ X, combineRaw m1 m2 X) = 1 - conflictK m1 m2 := by
    have htot := conflict_add_sum_raw m1 m2
    rw [h1.2.2, h2.2.2, one_mul] at htot
    linarith
  have hsum23 : (∑ X, combineRaw m2 m3 X) = 1 - conflictK m2 m3 := by
    have htot := conflict_add_sum_raw m2 m3
    rw [h2.2.2, h3.2.2, one_mul] at htot
    linarith
  have hLft : mL C = combineRaw (combineRaw m1 m2) m3 C /
      (∑ X, combineRaw (combineRaw m1 m2) m3 X) := by
    simp only [hmL, hm12]
    rw [combineRaw_div_left, conflictK_div_left, div_one_sub_div _ _ _ hd1]
    congr 1
    have htot := conflict_add_sum_raw (combineRaw m1 m2) m3
    rw [hsum12, h3.2.2, mul_one] at htot
    linarith
  have hRgt : mR C = combineRaw m1 (combineRaw m2 m3) C /
      (∑ X, combineRaw m1 (combineRaw m2 m3) X) := by
    simp only [hmR, hm23]
    rw [combineRaw_div_right, conflictK_div_right, div_one_sub_div _ _ _ hd2]
    congr 1
    have htot := conflict_add_sum_raw m1 (combineRaw m2 m3)
    rw [hsum23, h1.2.2, one_mul] at htot
    linarith
  rw [hLft, hRgt, combineRaw_assoc]

/-- C9 (amended): the belief and plausibility queries are pure total
functions with no failure mode at all — a hypothesis set that is not a
subset of the frame is accepted, and the part of it outside the frame is
simply ignored by the ordinary set operations. -/
theorem claim_C9_queries_total (frame : Finset α) (m : MassFun α)
    (h : validMass frame m) (H : Finset α) :
    calculate_belief m H = calculate_belief m (H ∩ frame) ∧
      calculate_plausibility m H = calculate_plausibility m (H ∩ frame) := by
  constructor
  · unfold calculate_belief
    refine Finset.sum_congr rfl fun A _ => ?_
    by_cases hm : m A = 0
    · simp [hm]
    · have hAf := (h.2.1 A hm).2
      exact if_congr ⟨fun hs => Finset.subset_inter hs hAf,
        fun hs => hs.trans Finset.inter_subset_left⟩ rfl rfl
  · unfold calculate_plausibility
    refine Finset.sum_congr rfl fun A _ => ?_
    by_cases hm : m A = 0
    · simp [hm]
    · have hAf := (h.2.1 A hm).2
      have hinter : A ∩ (H ∩ frame) = A ∩ H := by
        rw [Finset.inter_comm H frame, ← Finset.inter_assoc,
          Finset.inter_eq_left.mpr hAf]
      rw [hinter]

end DS

namespace DS

section RatKernelComputable

attribute [local semireducible] Rat.mul Rat.add Rat.sub Rat.inv

variable {α : Type} [DecidableEq α] [Fintype α]

/-- C1: for valid inputs whose conflict is below `1`, the combination
returns the conflict `K` as the sum of the products of masses over
pairs of focal sets with empty intersection, and assigns to every
non-empty set `C` the sum of the products over pairs intersecting in
`C`, divided by `1 - K`; in particular on the spec's example sources
`m1 = {d: 0.14, Ω: 0.86}` and `m2 = {d: 0.60, Ω: 0.40}` it returns
`K = 0`, mass `0.656` on `{d}` and `0.344` on `Ω`, with
`belief(d) = 0.656`, `plausibility(d) = 1` and `uncertainty(d) = 0.344`. -/
theorem claim_C1_dempster_formula (frame : Finset α) (m1 m2 : MassFun α)
    (h1 : validMass frame m1) (h2 : validMass frame m2)
    (hK : conflictK m1 m2 < 1) :
    (∃ r, dempster_combination m1 m2 = some (r, conflictK m1 m2) ∧
        conflictK m1 m2 = (∑ A, ∑ B, if A ∩ B = ∅ then m1 A * m2 B else 0) ∧
        ∀ C, C ≠ ∅ →
          r C = (∑ A, ∑ B, if A ∩ B = C then m1 A * m2 B else 0) /
            (1 - conflictK m1 m2)) ∧
      (dempster_combination exM1 exM2).map
          (fun p => (p.1 {0}, p.1 Finset.univ, p.2,
            calculate_belief p.1 {0}, calculate_plausibility p.1 {0},
            calculate_plausibility p.1 {0} - calculate_belief p.1 {0})) =
        some (656/1000, 344/1000, 0, 656/1000, 1, 344/1000) := by
  constructor
  · have hsome : dempster_combination m1 m2 =
        some (fun C => combineRaw m1 m2 C / (1 - conflictK m1 m2),
          conflictK m1 m2) := by
      unfold dempster_combination
      rw [if_pos hK]
    refine ⟨_, hsome, rfl, fun C hC => ?_⟩
    show combineRaw m1 m2 C / (1 - conflictK m1 m2) = _
    unfold combineRaw
    rw [if_neg hC]
  · decide

/-- C4 (amended): mass-function construction checks only that the
weights sum to `1` within tolerance `1e-3` — it succeeds exactly when
the sum check passes, returns the input unchanged, and rejects the
spec's malformed `{A: 0.5, B: 0.6}` example (sum `1.1`); the
non-empty-subset and positivity conditions are not checked (see the
counterexample). -/
theorem claim_C4_construction_sum_only (m : MassFun α) :
    (create_mass_function m = some m ↔ |(∑ A, m A) - 1| ≤ 1/1000) ∧
      (∀ r, create_mass_function m = some r → r = m) ∧
      create_mass_function exBadSum = none := by
  refine ⟨?_, ?_, ?_⟩
  · unfold create_mass_function
    split_ifs with hc
    · exact iff_of_false (by simp) (not_le.mpr hc)
    · exact iff_of_true rfl (not_lt.mp hc)
  · intro r hr
    unfold create_mass_function at hr
    split_ifs at hr
    exact (Option.some_inj.mp hr).symm
  · decide

/-- C4 counterexample: a mapping whose keys include the empty set (not
a non-empty subset of the frame) is accepted by the construction as
long as its masses sum to `1`, so construction success is not
equivalent to the three validity conditions of the claim. -/
theorem claim_C4_counterexample :
    create_mass_function exBadEmptyKey = some exBadEmptyKey ∧
      exBadEmptyKey ∅ ≠ 0 := by decide

/-- C3 counterexample: combining two shorthand point masses on the
disjoint singletons `var=V` and `var=F` does not fail — the shorthand
engine returns a result that materializes the conflict `K = 1` (with an
empty combined map). -/
theorem claim_C3_counterexample :
    (sdempster_combination sPointV sPointF).2 = 1 ∧
      (sdempster_combination sPointV sPointF).1 SKey.V = 0 ∧
      (sdempster_combination sPointV sPointF).1 SKey.F = 0 ∧
      (sdempster_combination sPointV sPointF).1 SKey.Q = 0 := by decide

/-- C9 counterexample: querying the hypothesis `{1}`, which is not a
subset of the one-atom frame `{0}`, does not fail — both queries return
a value (here `0`). -/
theorem claim_C9_counterexample :
    ¬ (({1} : Finset (Fin 2)) ⊆ exFrame1) ∧
      validMass exFrame1 exMFrame1 ∧
      calculate_belief exMFrame1 {1} = 0 ∧
      calculate_plausibility exMFrame1 {1} = 0 := by decide

/-- Witness for C1 at the spec's example sources. -/
theorem claim_C1_witness :
    (∃ r, dempster_combination exM1 exM2 = some (r, conflictK exM1 exM2) ∧
        conflictK exM1 exM2 =
          (∑ A, ∑ B, if A ∩ B = ∅ then exM1 A * exM2 B else 0) ∧
        ∀ C, C ≠ ∅ →
          r C = (∑ A, ∑ B, if A ∩ B = C then exM1 A * exM2 B else 0) /
            (1 - conflictK exM1 exM2)) ∧
      (dempster_combination exM1 exM2).map
          (fun p => (p.1 {0}, p.1 Finset.univ, p.2,
            calculate_belief p.1 {0}, calculate_plausibility p.1 {0},
            calculate_plausibility p.1 {0} - calculate_belief p.1 {0})) =
        some (656/1000, 344/1000, 0, 656/1000, 1, 344/1000) :=
  claim_C1_dempster_formula Finset.univ exM1 exM2 (by decide) (by decide)
    (by decide)

/-- Witness for C3 at the spec's example sources. -/
theorem claim_C3_witness :
    (dempster_combination exM1 exM2 = none ↔ conflictK exM1 exM2 = 1) ∧
      ∀ r K, dempster_combination exM1 exM2 = some (r, K) → 0 ≤ K ∧ K < 1 :=
  claim_C3_total_conflict Finset.univ exM1 exM2 (by decide) (by decide)

/-- Witness for C4 at the spec's example source `m1`. -/
theorem claim_C4_witness :
    (create_mass_function exM1 = some exM1 ↔ |(∑ A, exM1 A) - 1| ≤ 1/1000) ∧
      (∀ r, create_mass_function exM1 = some r → r = exM1) ∧
      create_mass_function exBadSum = none :=
  claim_C4_construction_sum_only exM1

/-- Witness for C9: the valid mass function over the one-atom frame
`{0}`, queried at the out-of-frame hypothesis `{1}`. -/
theorem claim_C9_witness :
    calculate_belief exMFrame1 {1} = calculate_belief exMFrame1 ({1} ∩ exFrame1) ∧
      calculate_plausibility exMFrame1 {1} =
        calculate_plausibility exMFrame1 ({1} ∩ exFrame1) :=
  claim_C9_queries_total exFrame1 exMFrame1 (by decide) {1}

/-- Witness for C6: the three example sources, their pairwise
combinations and both groupings, evaluated at the focal set `{d}`. -/
theorem claim_C6_witness : exML {0} = exMR {0} :=
  claim_C6_associative Finset.univ exM1 exM2 exM3 (by decide) (by decide)
    (by decide) exM12 exM23 exML exMR (conflictK exM1 exM2)
    (conflictK exM2 exM3) (conflictK exM12 exM3) (conflictK exM1 exM23)
    (by unfold dempster_combination
        rw [if_pos (by decide : conflictK exM1 exM2 < 1)]
        rfl)
    (by unfold dempster_combination
        rw [if_pos (by decide : conflictK exM2 exM3 < 1)]
        rfl)
    (by unfold dempster_combination
        rw [if_pos (by decide : conflictK exM12 exM3 < 1)]
        rfl)
    (by unfold dempster_combination
        rw [if_pos (by decide : conflictK exM1 exM23 < 1)]
        rfl)
    {0}

/-- Witness for C10 at the shorthand form of the spec's example
sources. -/
theorem claim_C10_witness :
    conflictK (lowerMass sEx1) (lowerMass sEx2) = sconflict sEx1 sEx2 ∧
      (sdempster_combination sEx1 sEx2).2 = sconflict sEx1 sEx2 ∧
      ∃ r, dempster_combination (lowerMass sEx1) (lowerMass sEx2) =
          some (r, sconflict sEx1 sEx2) ∧
        ∀ k, r (lowerKey k) = (sdempster_combination sEx1 sEx2).1 k :=
  claim_C10_shorthand_refines_subset sEx1 sEx2 (by decide)

/-- Witness for C2 at the spec's example sources. -/
theorem claim_C2_witness :
    conflictK exM1 exM2 + ∑ C, combineRaw exM1 exM2 C = 1 :=
  claim_C2_prenormalization_total Finset.univ exM1 exM2 (by decide) (by decide)

/-- Witness for C5 at the spec's example sources. -/
theorem claim_C5_witness :
    dempster_combination exM1 exM2 = dempster_combination exM2 exM1 :=
  claim_C5_commutative Finset.univ exM1 exM2 (by decide) (by decide)

/-- Witness for C7 at the spec's example source and hypothesis `{d}`. -/
theorem claim_C7_witness :
    calculate_belief exM1 {0} ≤ calculate_plausibility exM1 {0} ∧
      0 ≤ calculate_plausibility exM1 {0} - calculate_belief exM1 {0} :=
  claim_C7_belief_le_plausibility Finset.univ exM1 (by decide) {0} (by decide)

/-- Witness for C8 at the spec's example source. -/
theorem claim_C8_witness :
    calculate_belief exM1 Finset.univ = 1 ∧
      calculate_plausibility exM1 Finset.univ = 1 ∧
      calculate_belief exM1 ∅ = 0 ∧ calculate_plausibility exM1 ∅ = 0 :=
  claim_C8_frame_and_empty Finset.univ exM1 (by decide)

end RatKernelComputable

end DS
